import Mathlib

/-!
Formal model of a bit-banged TLC5940 LED-driver library.

The source program drives five GPIO output pins (serial data `sin`, serial
clock `sclk`, `blank`, latch `xlat`, grayscale clock `gsclk`) and keeps a
16-entry buffer of 12-bit grayscale values.  We embed the program shallowly:

* every pin write is an event `Event` recorded on a trace;
* fallibility of the underlying pin driver is modelled by an `Oracle`, a
  function deciding, for the n-th attempted write of a run, whether it
  succeeds (`none`) or fails with an error (`some e`);
* a stateful pin computation is a function `M ε α` from an oracle and the
  trace so far to an `Except` result and the extended trace (every attempted
  write is appended to the trace, including a failing one);
* the controller's `&mut self` methods become state-passing functions; the
  channel buffer is a `List Nat` (the `u16` entries are plain naturals: the
  program never performs arithmetic that could overflow on them, it only
  stores them and inspects single bits).
-/

namespace Tlc

/-- The five GPIO lines owned by the controller. -/
inductive PinId
  | sin
  | sclk
  | blank
  | xlat
  | gsclk
deriving DecidableEq, Repr

/-- A single attempted pin write: which pin, and which level was commanded. -/
inductive GpioAction
  | setLow
  | setHigh
deriving DecidableEq, Repr

/-- One recorded pin-write attempt. -/
structure Event where
  pin : PinId
  act : GpioAction
deriving DecidableEq, Repr

/-- `GpioValue` from the source: the logic level passed to `set_value`. -/
inductive GpioValue
  | Low
  | High
deriving DecidableEq, Repr

/-- Failure oracle: `o n` decides whether the n-th attempted pin write of a
run (counting from 0) succeeds (`none`) or fails with error `e` (`some e`). -/
def Oracle (ε : Type) := Nat → Option ε

/-- The always-succeeding oracle. -/
def allOk {ε : Type} : Oracle ε := fun _ => none

/-- A pin computation: given the oracle and the trace so far, produce a
result and the extended trace. -/
def M (ε α : Type) := Oracle ε → List Event → Except ε α × List Event

def pureM {ε α : Type} (a : α) : M ε α := fun _ tr => (Except.ok a, tr)

def bindM {ε α β : Type} (m : M ε α) (f : α → M ε β) : M ε β := fun o tr =>
  match m o tr with
  | (Except.ok a, tr2) => f a o tr2
  | (Except.error e, tr2) => (Except.error e, tr2)

/-- One attempted write of level `a` to pin `p`: the attempt is recorded on
the trace, and the oracle (consulted at the index of this attempt) decides
success or failure. -/
def writePin {ε : Type} (p : PinId) (a : GpioAction) : M ε Unit := fun o tr =>
  match o tr.length with
  | none => (Except.ok (), tr ++ [⟨p, a⟩])
  | some e => (Except.error e, tr ++ [⟨p, a⟩])

/-- `GpioOut::set_low` from the source. -/
def GpioOut.set_low {ε : Type} (p : PinId) : M ε Unit :=
  writePin p GpioAction.setLow

/-- `GpioOut::set_high` from the source. -/
def GpioOut.set_high {ε : Type} (p : PinId) : M ε Unit :=
  writePin p GpioAction.setHigh

/-- `GpioOut::set_value` from the source: dispatch on the logic level. -/
def GpioOut.set_value {ε : Type} (p : PinId) (v : GpioValue) : M ε Unit :=
  match v with
  | GpioValue.High => GpioOut.set_high p
  | GpioValue.Low => GpioOut.set_low p

/-- `GpioOutExt::pulse` from the source: `set_high()?; set_low()`. -/
def GpioOutExt.pulse {ε : Type} (p : PinId) : M ε Unit :=
  bindM (GpioOut.set_high p) (fun _ => GpioOut.set_low p)

/-- `TlcController`: the five pins are fixed identities (`PinId`), so the
model state is the channel buffer `values` (the source's `[u16; 16]`). -/
structure TlcController where
  values : List Nat
deriving DecidableEq, Repr

namespace TlcController

/-- `TlcController::new` from the source: drive `sin`, `sclk`, `xlat`,
`gsclk` low in that order (stopping at the first failure), then drive
`blank` high, and return a controller with a zero-initialized buffer. -/
def new {ε : Type} : M ε TlcController :=
  bindM (GpioOut.set_low PinId.sin) (fun _ =>
    bindM (GpioOut.set_low PinId.sclk) (fun _ =>
      bindM (GpioOut.set_low PinId.xlat) (fun _ =>
        bindM (GpioOut.set_low PinId.gsclk) (fun _ =>
          bindM (GpioOut.set_high PinId.blank) (fun _ =>
            pureM ⟨List.replicate 16 0⟩)))))

/-- `TlcController::set_channel` from the source: `self.values[channel] = color`.
Rust's indexing panics when `channel` is out of bounds; the panic is modelled
as `none`. -/
def set_channel (c : TlcController) (channel : Nat) (color : Nat) :
    Option TlcController :=
  if channel < c.values.length then some ⟨c.values.set channel color⟩ else none

/-- `TlcController::set_all` from the source: overwrite every buffer slot. -/
def set_all (c : TlcController) (value : Nat) : TlcController :=
  ⟨c.values.map (fun _ => value)⟩

/-- `TlcController::clear` from the source: `self.set_all(0)`. -/
def clear (c : TlcController) : TlcController :=
  set_all c 0

/-- `TlcController::get_pin_value_for_channel` from the source:
`(self.values[channel] & (1 << bit)) >> bit == 0`. -/
def get_pin_value_for_channel (c : TlcController) (channel : Nat) (bit : Nat)
    (h : channel < c.values.length) : GpioValue :=
  if (c.values.get ⟨channel, h⟩ &&& (1 <<< bit)) >>> bit = 0 then GpioValue.Low
  else GpioValue.High

/-- The inner `for i in (0..12).rev()` loop of `update`, transferring the
bits `k-1, k-2, …, 0` (most significant first) of channel `channel`:
set the data pin to the bit's value, pulse the serial clock, pulse the
grayscale clock.  Called with `k = 12`. -/
def transferChannel {ε : Type} (c : TlcController) (channel : Nat)
    (h : channel < c.values.length) : Nat → M ε Unit
  | 0 => pureM ()
  | k + 1 =>
    bindM
      (bindM (GpioOut.set_value PinId.sin (c.get_pin_value_for_channel channel k h))
        (fun _ =>
          bindM (GpioOutExt.pulse PinId.sclk)
            (fun _ => GpioOutExt.pulse PinId.gsclk)))
      (fun _ => transferChannel c channel h k)

/-- The `while gsclk_counter < 4096` loop of `update`.  The loop variable
`channel` is the source's `channel_counter : isize`, `gsclk` the source's
`gsclk_counter`.  The extra `fuel` argument makes the recursion structural;
the initial fuel 4096 can never be exhausted, because every iteration
increases `gsclk_counter` by at least 1 towards the 4096 bound.  The
hypothesis `h` discharges Rust's in-bounds requirement on
`values[channel_counter as usize]`: the counter starts at `len - 1` and only
ever decreases. -/
def updateLoop {ε : Type} (c : TlcController) :
    Nat → (channel : Int) → Nat → channel < (c.values.length : Int) → M ε Unit
  | 0, _, _, _ => pureM ()
  | fuel + 1, channel, gsclk, h =>
    if gsclk < 4096 then
      if hc : 0 ≤ channel then
        bindM (transferChannel c channel.toNat (by omega) 12)
          (fun _ => updateLoop c fuel (channel - 1) (gsclk + 12) (by omega))
      else
        bindM
          (bindM (GpioOut.set_low PinId.sin)
            (fun _ => GpioOutExt.pulse PinId.gsclk))
          (fun _ => updateLoop c fuel channel (gsclk + 1) h)
    else pureM ()

/-- `TlcController::update_init` from the source: drive `blank` low. -/
def update_init {ε : Type} : M ε Unit :=
  GpioOut.set_low PinId.blank

/-- `TlcController::update_post` from the source: drive `blank` high, pulse
the latch pin, return `Ok(())`. -/
def update_post {ε : Type} : M ε Unit :=
  bindM (GpioOut.set_high PinId.blank)
    (fun _ => bindM (GpioOutExt.pulse PinId.xlat) (fun _ => pureM ()))

/-- `TlcController::update` from the source.  The `&mut self` receiver is
modelled by returning the controller: the method body contains no assignment
to `self.values`, so the returned controller is the receiver itself. -/
def update {ε : Type} (c : TlcController) : M ε TlcController :=
  bindM update_init (fun _ =>
    bindM (updateLoop c 4096 ((c.values.length : Int) - 1) 0 (by omega))
      (fun _ => bindM update_post (fun _ => pureM c)))

end TlcController

/-! ## Derived trace descriptions

The following definitions describe, channel by channel and bit by bit, the
event trace that a fully successful `update` run appends.  They are derived
bottom-up from the operations above and proved equal to the actual runs. -/

/-- The two events recorded by a successful `pulse` on pin `p`. -/
def pulseTrace (p : PinId) : List Event :=
  [⟨p, GpioAction.setHigh⟩, ⟨p, GpioAction.setLow⟩]

/-- The event recorded by `set_value`: `Low` dispatches to `set_low`,
`High` to `set_high`. -/
def actOfValue : GpioValue → GpioAction
  | GpioValue.Low => GpioAction.setLow
  | GpioValue.High => GpioAction.setHigh

/-- The logic level of bit `bit` of value `v`, exactly as
`get_pin_value_for_channel` computes it. -/
def pinValueOf (v : Nat) (bit : Nat) : GpioValue :=
  if (v &&& (1 <<< bit)) >>> bit = 0 then GpioValue.Low else GpioValue.High

/-- Events of transferring bit `i` of value `v`: data-pin write, serial-clock
pulse, grayscale-clock pulse. -/
def bitEvents (v : Nat) (i : Nat) : List Event :=
  ⟨PinId.sin, actOfValue (pinValueOf v i)⟩ ::
    (pulseTrace PinId.sclk ++ pulseTrace PinId.gsclk)

/-- Events of transferring bits `k-1, …, 0` of value `v`, most significant
first. -/
def bitsEvents (v : Nat) : Nat → List Event
  | 0 => []
  | k + 1 => bitEvents v k ++ bitsEvents v k

/-- Events of transferring one full 12-bit channel value. -/
def channelEvents (v : Nat) : List Event :=
  bitsEvents v 12

theorem channelEvents_def (v : Nat) : channelEvents v = bitsEvents v 12 := rfl

/-- Events of the transfer phase: the buffer entries in reverse order
(channel 15 first), 12 bits each. -/
def transferEvents (vals : List Nat) : List Event :=
  vals.reverse.flatMap channelEvents

/-- Events of `m` grayscale-only iterations: data pin low, grayscale-clock
pulse, no serial clock. -/
def idleEvents : Nat → List Event
  | 0 => []
  | m + 1 => (⟨PinId.sin, GpioAction.setLow⟩ :: pulseTrace PinId.gsclk) ++ idleEvents m

/-- The full trace of a successful `update` run on controller `c`. -/
def updateEvents (c : TlcController) : List Event :=
  ⟨PinId.blank, GpioAction.setLow⟩ ::
    (transferEvents c.values ++ idleEvents 3904 ++
      ⟨PinId.blank, GpioAction.setHigh⟩ :: pulseTrace PinId.xlat)

/-! ## Runs under the always-succeeding oracle -/

theorem writePin_allOk {ε : Type} (p : PinId) (a : GpioAction) (tr : List Event) :
    writePin (ε := ε) p a allOk tr = (Except.ok (), tr ++ [⟨p, a⟩]) := rfl

theorem pulse_allOk {ε : Type} (p : PinId) (tr : List Event) :
    GpioOutExt.pulse (ε := ε) p allOk tr = (Except.ok (), tr ++ pulseTrace p) := by
  simp [GpioOutExt.pulse, GpioOut.set_high, GpioOut.set_low, bindM, writePin, allOk,
    pulseTrace]

theorem set_value_allOk {ε : Type} (p : PinId) (v : GpioValue) (tr : List Event) :
    GpioOut.set_value (ε := ε) p v allOk tr = (Except.ok (), tr ++ [⟨p, actOfValue v⟩]) := by
  cases v <;> rfl

theorem transferChannel_allOk {ε : Type} (c : TlcController) (channel : Nat)
    (h : channel < c.values.length) (k : Nat) (tr : List Event) :
    TlcController.transferChannel (ε := ε) c channel h k allOk tr =
      (Except.ok (), tr ++ bitsEvents (c.values.get ⟨channel, h⟩) k) := by
  induction k generalizing tr with
  | zero => simp [TlcController.transferChannel, pureM, bitsEvents]
  | succ k ih =>
    have hpv : c.get_pin_value_for_channel channel k h =
        pinValueOf (c.values.get ⟨channel, h⟩) k := rfl
    simp only [TlcController.transferChannel, bindM, set_value_allOk, pulse_allOk, hpv]
    rw [ih]
    simp [bitsEvents, bitEvents, List.append_assoc]

theorem update_post_allOk {ε : Type} (tr : List Event) :
    TlcController.update_post (ε := ε) allOk tr =
      (Except.ok (), tr ++ ⟨PinId.blank, GpioAction.setHigh⟩ :: pulseTrace PinId.xlat) := by
  simp [TlcController.update_post, bindM, GpioOut.set_high, GpioOut.set_low,
    GpioOutExt.pulse, writePin, allOk, pureM, pulseTrace]

theorem updateLoop_idle_allOk {ε : Type} (c : TlcController) (m : Nat) :
    ∀ (fuel : Nat) (channel : Int) (gs : Nat)
      (h : channel < (c.values.length : Int)) (tr : List Event),
      channel < 0 → gs = 4096 - m → m ≤ 4096 → m ≤ fuel →
      TlcController.updateLoop (ε := ε) c fuel channel gs h allOk tr =
        (Except.ok (), tr ++ idleEvents m) := by
  induction m with
  | zero =>
    intro fuel channel gs h tr hneg hgs hm hf
    subst hgs
    cases fuel with
    | zero => simp [TlcController.updateLoop, pureM, idleEvents]
    | succ f => simp [TlcController.updateLoop, pureM, idleEvents]
  | succ m ih =>
    intro fuel channel gs h tr hneg hgs hm hf
    obtain ⟨f, rfl⟩ : ∃ f, fuel = f + 1 := ⟨fuel - 1, by omega⟩
    have hlt : gs < 4096 := by omega
    have hnc : ¬(0 ≤ channel) := by omega
    simp only [TlcController.updateLoop, if_pos hlt, dif_neg hnc, bindM,
      GpioOut.set_low, writePin_allOk, pulse_allOk]
    rw [ih f channel (gs + 1) h _ hneg (by omega) (by omega) (by omega)]
    simp [idleEvents, pulseTrace, List.append_assoc]

theorem updateLoop_congr {ε : Type} (c : TlcController) (fuel : Nat)
    {ch ch' : Int} {gs gs' : Nat} (hch : ch = ch') (hgs : gs = gs')
    (h : ch < (c.values.length : Int)) (h' : ch' < (c.values.length : Int)) :
    TlcController.updateLoop (ε := ε) c fuel ch gs h =
      TlcController.updateLoop c fuel ch' gs' h' := by
  subst hch hgs
  exact congrArg (fun pf => TlcController.updateLoop (ε := ε) c fuel ch gs pf)
    (Subsingleton.elim h h')

theorem updateLoop_transfer_allOk {ε : Type} (c : TlcController)
    (hlen : c.values.length = 16) (n : Nat) :
    ∀ (fuel : Nat) (h : (n : Int) - 1 < (c.values.length : Int)) (tr : List Event),
      n ≤ 16 → n + 3904 ≤ fuel →
      TlcController.updateLoop (ε := ε) c fuel ((n : Int) - 1) (192 - 12 * n) h allOk tr =
        (Except.ok (),
          tr ++ ((c.values.take n).reverse.flatMap channelEvents ++ idleEvents 3904)) := by
  induction n with
  | zero =>
    intro fuel h tr hn hf
    have hm : ((0 : Int) - 1) < (c.values.length : Int) := by omega
    rw [updateLoop_congr (ε := ε) c fuel
      (show ((0 : Nat) : Int) - 1 = (0 : Int) - 1 by norm_num)
      (show 192 - 12 * 0 = 192 by norm_num) h hm]
    rw [updateLoop_idle_allOk (ε := ε) c 3904 fuel ((0 : Int) - 1) 192 hm tr
      (by omega) (by omega) (by omega) (by omega)]
    have h1 : (List.take 0 c.values).reverse.flatMap channelEvents ++ idleEvents 3904 =
        idleEvents 3904 := by
      rw [List.take_zero, List.reverse_nil, List.flatMap_nil, List.nil_append]
    rw [h1]
  | succ n ih =>
    intro fuel h tr hn hf
    obtain ⟨f, rfl⟩ : ∃ f, fuel = f + 1 := ⟨fuel - 1, by omega⟩
    have hlt : 192 - 12 * (n + 1) < 4096 := by omega
    have hc : (0 : Int) ≤ ((n + 1 : Nat) : Int) - 1 := by push_cast; omega
    simp only [TlcController.updateLoop, if_pos hlt, dif_pos hc, bindM]
    rw [transferChannel_allOk]
    dsimp only
    have hnew : ((n : Int)) - 1 < (c.values.length : Int) := by omega
    rw [updateLoop_congr (ε := ε) c f
      (show ((n + 1 : Nat) : Int) - 1 - 1 = ((n : Int)) - 1 by push_cast; ring)
      (show 192 - 12 * (n + 1) + 12 = 192 - 12 * n by omega) _ hnew]
    rw [ih f hnew _ (by omega) (by omega)]
    have hn16 : n < c.values.length := by omega
    have hidx : (((n + 1 : Nat) : Int) - 1).toNat = n := by omega
    have hget : ∀ pf : (((n + 1 : Nat) : Int) - 1).toNat < c.values.length,
        c.values.get ⟨(((n + 1 : Nat) : Int) - 1).toNat, pf⟩ = c.values.get ⟨n, hn16⟩ := by
      intro pf
      congr 1
      exact Fin.ext hidx
    rw [hget]
    have e4 : c.values.take (n + 1) = c.values.take n ++ [c.values.get ⟨n, hn16⟩] := by
      simpa using (List.take_concat_get c.values n hn16).symm
    rw [e4, List.reverse_append, List.reverse_singleton, List.singleton_append,
      List.flatMap_cons, List.append_assoc, channelEvents_def, List.append_assoc]

theorem bindM_ok {ε α β : Type} (m : M ε α) (f : α → M ε β) (o : Oracle ε)
    (tr : List Event) (a : α) (tr2 : List Event) (h : m o tr = (Except.ok a, tr2)) :
    bindM m f o tr = f a o tr2 := by
  unfold bindM
  rw [h]

theorem bindM_error {ε α β : Type} (m : M ε α) (f : α → M ε β) (o : Oracle ε)
    (tr : List Event) (e : ε) (tr2 : List Event) (h : m o tr = (Except.error e, tr2)) :
    bindM m f o tr = (Except.error e, tr2) := by
  unfold bindM
  rw [h]

/-- A fully successful `update` run: the result is `Ok` with the controller
unchanged, and exactly the events of `updateEvents` are appended. -/
theorem update_allOk {ε : Type} (c : TlcController) (hlen : c.values.length = 16)
    (tr : List Event) :
    TlcController.update (ε := ε) c allOk tr = (Except.ok c, tr ++ updateEvents c) := by
  have hch : ((c.values.length : Int) - 1) = ((16 : Nat) : Int) - 1 := by rw [hlen]
  have hgs : (0 : Nat) = 192 - 12 * 16 := by norm_num
  have hnew : ((16 : Nat) : Int) - 1 < (c.values.length : Int) := by omega
  have h0 : TlcController.update_init (ε := ε) allOk tr =
      (Except.ok (), tr ++ [⟨PinId.blank, GpioAction.setLow⟩]) := rfl
  unfold TlcController.update
  rw [updateLoop_congr (ε := ε) c 4096 hch hgs _ hnew]
  rw [bindM_ok _ _ _ _ _ _ h0]
  have h1 := updateLoop_transfer_allOk (ε := ε) c hlen 16 4096 hnew
    (tr ++ [⟨PinId.blank, GpioAction.setLow⟩]) (by norm_num) (by norm_num)
  rw [bindM_ok _ _ _ _ _ _ h1]
  rw [bindM_ok _ _ _ _ _ _ (update_post_allOk (ε := ε) _)]
  unfold pureM
  have e16 : c.values.take 16 = c.values := by
    rw [← hlen]
    exact List.take_length c.values
  rw [e16]
  have tdef : c.values.reverse.flatMap channelEvents = transferEvents c.values := rfl
  rw [tdef]
  unfold updateEvents
  rw [List.append_assoc, List.append_assoc, List.singleton_append, List.append_assoc]

/-! ## Counting and membership lemmas over the derived traces -/

theorem idleEvents_count (e : Event) :
    ∀ m : Nat, (idleEvents m).count e =
      m * ((⟨PinId.sin, GpioAction.setLow⟩ :: pulseTrace PinId.gsclk).count e) := by
  intro m
  induction m with
  | zero => simp [idleEvents]
  | succ m ih =>
    rw [idleEvents, List.count_append, ih]
    ring

theorem bitsEvents_count {e : Event} (hne : e.pin ≠ PinId.sin) (v : Nat) :
    ∀ k : Nat, (bitsEvents v k).count e =
      k * ((pulseTrace PinId.sclk ++ pulseTrace PinId.gsclk).count e) := by
  intro k
  induction k with
  | zero => simp [bitsEvents]
  | succ k ih =>
    have hhead : e ≠ (⟨PinId.sin, actOfValue (pinValueOf v k)⟩ : Event) := by
      intro hcon
      exact hne (by rw [hcon])
    rw [bitsEvents, List.count_append, ih, bitEvents, List.count_cons_of_ne hhead]
    ring

theorem channelEvents_count {e : Event} (hne : e.pin ≠ PinId.sin) (v : Nat) :
    (channelEvents v).count e =
      12 * ((pulseTrace PinId.sclk ++ pulseTrace PinId.gsclk).count e) := by
  rw [channelEvents_def, bitsEvents_count hne]

theorem flatMap_count_const {α : Type} (f : α → List Event) (e : Event) (cc : Nat)
    (hf : ∀ a, (f a).count e = cc) :
    ∀ l : List α, (l.flatMap f).count e = l.length * cc := by
  intro l
  induction l with
  | nil => simp
  | cons a l ih =>
    rw [List.flatMap_cons, List.count_append, ih, hf, List.length_cons]
    ring

theorem transferEvents_count {e : Event} (hne : e.pin ≠ PinId.sin) (vals : List Nat) :
    (transferEvents vals).count e =
      vals.length * (12 * ((pulseTrace PinId.sclk ++ pulseTrace PinId.gsclk).count e)) := by
  rw [transferEvents,
    flatMap_count_const channelEvents e _ (fun v => channelEvents_count hne v),
    List.length_reverse]

theorem mem_bitsEvents {e : Event} (v : Nat) :
    ∀ k : Nat, e ∈ bitsEvents v k →
      e.pin = PinId.sin ∨ e.pin = PinId.sclk ∨ e.pin = PinId.gsclk := by
  intro k
  induction k with
  | zero => intro h; simp [bitsEvents] at h
  | succ k ih =>
    intro h
    rw [bitsEvents, List.mem_append] at h
    rcases h with h | h
    · rw [bitEvents] at h
      rcases List.mem_cons.mp h with h | h
      · subst h; left; rfl
      · rw [List.mem_append] at h
        rcases h with h | h <;> rw [pulseTrace] at h <;>
          rcases List.mem_cons.mp h with h | h
        · subst h; right; left; rfl
        · rcases List.mem_singleton.mp h with h; subst h; right; left; rfl
        · subst h; right; right; rfl
        · rcases List.mem_singleton.mp h with h; subst h; right; right; rfl
    · exact ih h

theorem mem_transferEvents {e : Event} (vals : List Nat) (h : e ∈ transferEvents vals) :
    e.pin = PinId.sin ∨ e.pin = PinId.sclk ∨ e.pin = PinId.gsclk := by
  rw [transferEvents, List.mem_flatMap] at h
  rcases h with ⟨v, _, hv⟩
  exact mem_bitsEvents v 12 hv

theorem mem_idleEvents {e : Event} :
    ∀ m : Nat, e ∈ idleEvents m → e.pin = PinId.sin ∨ e.pin = PinId.gsclk := by
  intro m
  induction m with
  | zero => intro h; simp [idleEvents] at h
  | succ m ih =>
    intro h
    rw [idleEvents, List.mem_append] at h
    rcases h with h | h
    · rcases List.mem_cons.mp h with h | h
      · subst h; left; rfl
      · rw [pulseTrace] at h
        rcases List.mem_cons.mp h with h | h
        · subst h; right; rfl
        · rcases List.mem_singleton.mp h with h; subst h; right; rfl
    · exact ih h


theorem updateEvents_def (c : TlcController) :
    updateEvents c = ⟨PinId.blank, GpioAction.setLow⟩ ::
      (transferEvents c.values ++ idleEvents 3904 ++
        ⟨PinId.blank, GpioAction.setHigh⟩ :: pulseTrace PinId.xlat) := rfl

/-- The trace of a successful `update` run started on the empty trace. -/
theorem update_allOk_trace {ε : Type} (c : TlcController) (hlen : c.values.length = 16) :
    (TlcController.update (ε := ε) c allOk []).2 = updateEvents c := by
  rw [update_allOk (ε := ε) c hlen [], List.nil_append]

/-- The all-zero controller (the buffer state produced by `new`). -/
def zeroCtrl : TlcController := ⟨List.replicate 16 0⟩

/-- C1: for every 16-entry channel buffer, a run of `update` in which every
pin write succeeds records exactly 4096 grayscale-clock pulses, exactly 192
serial-clock pulses and exactly 1 latch pulse; blank is driven low as the
very first event (hence before any transfer pulse) and driven high again
directly before the latch pulse, with no blank or latch event anywhere in
between. -/
theorem update_pulse_counts (c : TlcController) (hlen : c.values.length = 16) :
    ((TlcController.update (ε := Unit) c allOk []).2.count
        ⟨PinId.gsclk, GpioAction.setHigh⟩ = 4096) ∧
    ((TlcController.update (ε := Unit) c allOk []).2.count
        ⟨PinId.sclk, GpioAction.setHigh⟩ = 192) ∧
    ((TlcController.update (ε := Unit) c allOk []).2.count
        ⟨PinId.xlat, GpioAction.setHigh⟩ = 1) ∧
    ∃ mid : List Event,
      (TlcController.update (ε := Unit) c allOk []).2 =
        ⟨PinId.blank, GpioAction.setLow⟩ :: (mid ++
          [⟨PinId.blank, GpioAction.setHigh⟩, ⟨PinId.xlat, GpioAction.setHigh⟩,
            ⟨PinId.xlat, GpioAction.setLow⟩]) ∧
      ∀ e ∈ mid, e.pin ≠ PinId.blank ∧ e.pin ≠ PinId.xlat := by
  have htr := update_allOk_trace (ε := Unit) c hlen
  refine ⟨?_, ?_, ?_, ?_⟩
  · rw [htr, updateEvents_def,
      List.count_cons_of_ne (by decide :
        (⟨PinId.gsclk, GpioAction.setHigh⟩ : Event) ≠ ⟨PinId.blank, GpioAction.setLow⟩),
      List.count_append, List.count_append,
      transferEvents_count (by decide) c.values, idleEvents_count, hlen]
    rw [show (pulseTrace PinId.sclk ++ pulseTrace PinId.gsclk).count
        ⟨PinId.gsclk, GpioAction.setHigh⟩ = 1 from rfl]
    rw [show ((⟨PinId.sin, GpioAction.setLow⟩ : Event) :: pulseTrace PinId.gsclk).count
        ⟨PinId.gsclk, GpioAction.setHigh⟩ = 1 from rfl]
    rw [show ((⟨PinId.blank, GpioAction.setHigh⟩ : Event) :: pulseTrace PinId.xlat).count
        ⟨PinId.gsclk, GpioAction.setHigh⟩ = 0 from rfl]
  · rw [htr, updateEvents_def,
      List.count_cons_of_ne (by decide :
        (⟨PinId.sclk, GpioAction.setHigh⟩ : Event) ≠ ⟨PinId.blank, GpioAction.setLow⟩),
      List.count_append, List.count_append,
      transferEvents_count (by decide) c.values, idleEvents_count, hlen]
    rw [show (pulseTrace PinId.sclk ++ pulseTrace PinId.gsclk).count
        ⟨PinId.sclk, GpioAction.setHigh⟩ = 1 from rfl]
    rw [show ((⟨PinId.sin, GpioAction.setLow⟩ : Event) :: pulseTrace PinId.gsclk).count
        ⟨PinId.sclk, GpioAction.setHigh⟩ = 0 from rfl]
    rw [show ((⟨PinId.blank, GpioAction.setHigh⟩ : Event) :: pulseTrace PinId.xlat).count
        ⟨PinId.sclk, GpioAction.setHigh⟩ = 0 from rfl]
  · rw [htr, updateEvents_def,
      List.count_cons_of_ne (by decide :
        (⟨PinId.xlat, GpioAction.setHigh⟩ : Event) ≠ ⟨PinId.blank, GpioAction.setLow⟩),
      List.count_append, List.count_append,
      transferEvents_count (by decide) c.values, idleEvents_count, hlen]
    rw [show (pulseTrace PinId.sclk ++ pulseTrace PinId.gsclk).count
        ⟨PinId.xlat, GpioAction.setHigh⟩ = 0 from rfl]
    rw [show ((⟨PinId.sin, GpioAction.setLow⟩ : Event) :: pulseTrace PinId.gsclk).count
        ⟨PinId.xlat, GpioAction.setHigh⟩ = 0 from rfl]
    rw [show ((⟨PinId.blank, GpioAction.setHigh⟩ : Event) :: pulseTrace PinId.xlat).count
        ⟨PinId.xlat, GpioAction.setHigh⟩ = 1 from rfl]
  · refine ⟨transferEvents c.values ++ idleEvents 3904, ?_, ?_⟩
    · rw [htr, updateEvents_def]
      rw [show (⟨PinId.blank, GpioAction.setHigh⟩ : Event) :: pulseTrace PinId.xlat =
        [⟨PinId.blank, GpioAction.setHigh⟩, ⟨PinId.xlat, GpioAction.setHigh⟩,
          ⟨PinId.xlat, GpioAction.setLow⟩] from rfl]
    · intro e he
      rcases List.mem_append.mp he with h | h
      · rcases mem_transferEvents c.values h with h1 | h1 | h1 <;>
          exact ⟨by rw [h1]; decide, by rw [h1]; decide⟩
      · rcases mem_idleEvents 3904 h with h1 | h1 <;>
          exact ⟨by rw [h1]; decide, by rw [h1]; decide⟩

/-- Witness for C1: the buffer-length hypothesis discharged at the all-zero
controller. -/
theorem update_pulse_counts_witness :
    ((TlcController.update (ε := Unit) zeroCtrl allOk []).2.count
        ⟨PinId.gsclk, GpioAction.setHigh⟩ = 4096) ∧
    ((TlcController.update (ε := Unit) zeroCtrl allOk []).2.count
        ⟨PinId.sclk, GpioAction.setHigh⟩ = 192) ∧
    ((TlcController.update (ε := Unit) zeroCtrl allOk []).2.count
        ⟨PinId.xlat, GpioAction.setHigh⟩ = 1) ∧
    ∃ mid : List Event,
      (TlcController.update (ε := Unit) zeroCtrl allOk []).2 =
        ⟨PinId.blank, GpioAction.setLow⟩ :: (mid ++
          [⟨PinId.blank, GpioAction.setHigh⟩, ⟨PinId.xlat, GpioAction.setHigh⟩,
            ⟨PinId.xlat, GpioAction.setLow⟩]) ∧
      ∀ e ∈ mid, e.pin ≠ PinId.blank ∧ e.pin ≠ PinId.xlat :=
  update_pulse_counts zeroCtrl rfl

/-- C9: `clear` is definitionally `set_all 0`, and it zeroes every one of
the buffer slots (the buffer becomes `replicate length 0`, and its length is
unchanged). -/
theorem clear_eq_set_all_zero (c : TlcController) :
    TlcController.clear c = TlcController.set_all c 0 ∧
    (TlcController.clear c).values = List.replicate c.values.length 0 ∧
    (TlcController.clear c).values.length = c.values.length := by
  refine ⟨rfl, ?_, ?_⟩
  · show c.values.map (fun _ => 0) = List.replicate c.values.length 0
    exact List.map_const' c.values 0
  · show (c.values.map (fun _ => 0)).length = c.values.length
    exact List.length_map c.values (fun _ => 0)

/-- C10: `set_channel` performs no bounds check of its own: for an index
inside the buffer the write succeeds, for an index at or beyond the buffer
length the call is the modelled panic (`none`) rather than an error value.
`set_channel` is a pure buffer operation (type `Option TlcController`, not a
pin computation `M`), so no pin is written in either case. -/
theorem set_channel_unchecked_bounds (c : TlcController) (i : Nat) (w : Nat) :
    (i < c.values.length → ∃ c2 : TlcController,
      TlcController.set_channel c i w = some c2) ∧
    (c.values.length ≤ i → TlcController.set_channel c i w = none) := by
  constructor
  · intro hi
    exact ⟨⟨c.values.set i w⟩, by rw [TlcController.set_channel, if_pos hi]⟩
  · intro hi
    rw [TlcController.set_channel, if_neg (by omega)]

/-- Witness for C10: index 2 is written, index 20 panics, on the 16-entry
all-zero buffer. -/
theorem set_channel_unchecked_bounds_witness :
    (∃ c2 : TlcController, TlcController.set_channel zeroCtrl 2 7 = some c2) ∧
    TlcController.set_channel zeroCtrl 20 7 = none :=
  ⟨(set_channel_unchecked_bounds zeroCtrl 2 7).1 (by decide),
    (set_channel_unchecked_bounds zeroCtrl 20 7).2 (by decide)⟩

/-- An oracle over error type `Nat` that fails exactly the `k`-th attempted
write (with error 0) and lets every other write succeed. -/
def failAt (k : Nat) : Oracle Nat := fun n => if n = k then some 0 else none

/-- C3: `pulse` attempts `set_high` and, only if that succeeded, `set_low`;
a failing `set_high` short-circuits: its error is returned unchanged and no
`set_low` attempt is ever recorded. -/
theorem pulse_first_failure_short_circuits {ε : Type} (p : PinId) (o : Oracle ε)
    (tr : List Event) :
    (∀ e, o tr.length = some e →
      GpioOutExt.pulse p o tr = (Except.error e, tr ++ [⟨p, GpioAction.setHigh⟩])) ∧
    (o tr.length = none →
      GpioOutExt.pulse p o tr =
        (match o (tr.length + 1) with
          | none =>
            (Except.ok (), tr ++ [⟨p, GpioAction.setHigh⟩, ⟨p, GpioAction.setLow⟩])
          | some e2 =>
            (Except.error e2, tr ++ [⟨p, GpioAction.setHigh⟩, ⟨p, GpioAction.setLow⟩]))) := by
  constructor
  · intro e he
    simp [GpioOutExt.pulse, GpioOut.set_high, GpioOut.set_low, bindM, writePin, he]
  · intro hn
    rcases h2 : o (tr.length + 1) with _ | e2 <;>
      simp [GpioOutExt.pulse, GpioOut.set_high, GpioOut.set_low, bindM, writePin, hn, h2]

/-- Witness for C3: a pulse on `sin` with the very first write failing
records only the `set_high` attempt and returns the error; with no failure
it records `set_high` then `set_low`. -/
theorem pulse_first_failure_witness :
    (GpioOutExt.pulse PinId.sin (failAt 0) [] =
      (Except.error 0, [⟨PinId.sin, GpioAction.setHigh⟩])) ∧
    (GpioOutExt.pulse PinId.sin (allOk (ε := Nat)) [] =
      (Except.ok (),
        [⟨PinId.sin, GpioAction.setHigh⟩, ⟨PinId.sin, GpioAction.setLow⟩])) :=
  ⟨(pulse_first_failure_short_circuits PinId.sin (failAt 0) []).1 0 rfl,
    (pulse_first_failure_short_circuits PinId.sin allOk []).2 rfl⟩

/-- The low-setting group of `new`, in program order: data, serial clock,
latch, grayscale clock. -/
def lowGroupWrites : List Event :=
  [⟨PinId.sin, GpioAction.setLow⟩, ⟨PinId.sclk, GpioAction.setLow⟩,
    ⟨PinId.xlat, GpioAction.setLow⟩, ⟨PinId.gsclk, GpioAction.setLow⟩]

/-- C4: construction drives data, serial-clock, latch and grayscale-clock
low in that order and then blank high, returning a zeroed 16-entry buffer;
if the `k`-th write of the low-setting group fails, that error is returned,
only the first `k+1` low-group attempts are recorded, and blank is never
written. -/
theorem new_drives_pins_in_order {ε : Type} (o : Oracle ε) (tr : List Event) :
    ((∀ j, j < 5 → o (tr.length + j) = none) →
      TlcController.new (ε := ε) o tr =
        (Except.ok ⟨List.replicate 16 0⟩,
          tr ++ (lowGroupWrites ++ [⟨PinId.blank, GpioAction.setHigh⟩]))) ∧
    (∀ k e, k < 4 → (∀ j, j < k → o (tr.length + j) = none) →
      o (tr.length + k) = some e →
      TlcController.new (ε := ε) o tr =
        (Except.error e, tr ++ lowGroupWrites.take (k + 1)) ∧
      ∀ ev ∈ lowGroupWrites.take (k + 1), ev.pin ≠ PinId.blank) := by
  constructor
  · intro hsucc
    have h0 : o tr.length = none := by simpa using hsucc 0 (by omega)
    have h1 : o (tr.length + 1) = none := hsucc 1 (by omega)
    have h2 : o (tr.length + 2) = none := hsucc 2 (by omega)
    have h3 : o (tr.length + 3) = none := hsucc 3 (by omega)
    have h4 : o (tr.length + 4) = none := hsucc 4 (by omega)
    simp [TlcController.new, bindM, GpioOut.set_low, GpioOut.set_high, writePin,
      pureM, h0, h1, h2, h3, h4, lowGroupWrites]
  · intro k e hk hpre hfail
    interval_cases k
    · have hf : o tr.length = some e := by simpa using hfail
      refine ⟨?_, by decide⟩
      simp [TlcController.new, bindM, GpioOut.set_low, writePin, hf, lowGroupWrites]
    · have h0 : o tr.length = none := by simpa using hpre 0 (by omega)
      refine ⟨?_, by decide⟩
      simp [TlcController.new, bindM, GpioOut.set_low, writePin, h0, hfail, lowGroupWrites]
    · have h0 : o tr.length = none := by simpa using hpre 0 (by omega)
      have h1 : o (tr.length + 1) = none := hpre 1 (by omega)
      refine ⟨?_, by decide⟩
      simp [TlcController.new, bindM, GpioOut.set_low, writePin, h0, h1, hfail,
        lowGroupWrites]
    · have h0 : o tr.length = none := by simpa using hpre 0 (by omega)
      have h1 : o (tr.length + 1) = none := hpre 1 (by omega)
      have h2 : o (tr.length + 2) = none := hpre 2 (by omega)
      refine ⟨?_, by decide⟩
      simp [TlcController.new, bindM, GpioOut.set_low, writePin, h0, h1, h2, hfail,
        lowGroupWrites]

/-- Witness for C4: the all-success run from the empty trace, and the run
whose third write (the latch-low write, index 2) fails. -/
theorem new_drives_pins_witness :
    (TlcController.new (ε := Nat) allOk [] =
      (Except.ok ⟨List.replicate 16 0⟩,
        lowGroupWrites ++ [⟨PinId.blank, GpioAction.setHigh⟩])) ∧
    (TlcController.new (ε := Nat) (failAt 2) [] =
      (Except.error 0, lowGroupWrites.take 3) ∧
      ∀ ev ∈ lowGroupWrites.take 3, ev.pin ≠ PinId.blank) :=
  ⟨(new_drives_pins_in_order allOk []).1 (fun _ _ => rfl),
    (new_drives_pins_in_order (failAt 2) []).2 2 0 (by omega)
      (fun j hj => by
        simp only [failAt, List.length_nil, Nat.zero_add]
        rw [if_neg (by omega)])
      rfl⟩

/-- The buffer of the controller result `r` equals the buffer of `c`
whenever `r` is a success. -/
def BufferPreserved {ε : Type} (c : TlcController) (r : Except ε TlcController) : Prop :=
  match r with
  | Except.ok c2 => c2.values = c.values
  | Except.error _ => True

/-- Every `update` run either succeeds returning the receiver itself, or
fails with some error. -/
theorem update_result_shape {ε : Type} (c : TlcController) (o : Oracle ε)
    (tr : List Event) :
    (TlcController.update (ε := ε) c o tr).1 = Except.ok c ∨
    ∃ e, (TlcController.update (ε := ε) c o tr).1 = Except.error e := by
  unfold TlcController.update
  rcases h1 : TlcController.update_init (ε := ε) o tr with ⟨r1, tr1⟩
  cases r1 with
  | error e =>
    rw [bindM_error _ _ _ _ _ _ h1]
    exact Or.inr ⟨e, rfl⟩
  | ok a =>
    cases a
    rw [bindM_ok _ _ _ _ _ _ h1]
    rcases h2 : TlcController.updateLoop (ε := ε) c 4096 ((c.values.length : Int) - 1) 0
        (by omega) o tr1 with ⟨r2, tr2⟩
    cases r2 with
    | error e =>
      rw [bindM_error _ _ _ _ _ _ h2]
      exact Or.inr ⟨e, rfl⟩
    | ok a2 =>
      cases a2
      rw [bindM_ok _ _ _ _ _ _ h2]
      rcases h3 : TlcController.update_post (ε := ε) o tr2 with ⟨r3, tr3⟩
      cases r3 with
      | error e =>
        rw [bindM_error _ _ _ _ _ _ h3]
        exact Or.inr ⟨e, rfl⟩
      | ok a3 =>
        cases a3
        rw [bindM_ok _ _ _ _ _ _ h3]
        exact Or.inl rfl

/-- C7: `update` never modifies the channel buffer: whatever the oracle does
(success or any failure), a successful result carries exactly the buffer the
call started with, and a failure leaves the buffer untouched (the model's
controller value is only ever threaded through unchanged). -/
theorem update_preserves_buffer {ε : Type} (c : TlcController) (o : Oracle ε)
    (tr : List Event) :
    BufferPreserved c (TlcController.update (ε := ε) c o tr).1 := by
  rcases update_result_shape (ε := ε) c o tr with h | ⟨e, h⟩
  · rw [h]
    exact rfl
  · rw [h]
    exact trivial

/-- `m` only ever appends events satisfying `P` to the trace, whatever the
oracle does and however it ends. -/
def appendsOnly {ε α : Type} (m : M ε α) (P : Event → Prop) : Prop :=
  ∀ (o : Oracle ε) (tr : List Event) (r : Except ε α) (tr2 : List Event),
    m o tr = (r, tr2) → ∃ app, tr2 = tr ++ app ∧ ∀ e ∈ app, P e

theorem appendsOnly_pureM {ε α : Type} (a : α) (P : Event → Prop) :
    appendsOnly (pureM (ε := ε) a) P := by
  intro o tr r tr2 h
  obtain ⟨h1, h2⟩ := Prod.mk.injEq (Except.ok a) tr r tr2 ▸ h
  exact ⟨[], by rw [← h2, List.append_nil], fun e he => absurd he (List.not_mem_nil e)⟩

theorem appendsOnly_writePin {ε : Type} (p : PinId) (a : GpioAction)
    (P : Event → Prop) (hP : P ⟨p, a⟩) : appendsOnly (writePin (ε := ε) p a) P := by
  intro o tr r tr2 h
  refine ⟨[⟨p, a⟩], ?_, ?_⟩
  · rcases ho : o tr.length with _ | e <;>
      · rw [writePin, ho] at h
        obtain ⟨h1, h2⟩ := Prod.mk.injEq _ _ r tr2 ▸ h
        exact h2.symm
  · intro e he
    rw [List.mem_singleton.mp he]
    exact hP

theorem appendsOnly_bindM {ε α β : Type} {m : M ε α} {f : α → M ε β}
    {P : Event → Prop} (hm : appendsOnly m P) (hf : ∀ a, appendsOnly (f a) P) :
    appendsOnly (bindM m f) P := by
  intro o tr r tr2 hbind
  rcases h : m o tr with ⟨r1, tr1⟩
  obtain ⟨app, happ, hPapp⟩ := hm o tr r1 tr1 h
  cases r1 with
  | ok a =>
    rw [bindM_ok _ _ _ _ _ _ h] at hbind
    obtain ⟨app2, happ2, hP2⟩ := hf a o tr1 r tr2 hbind
    refine ⟨app ++ app2, ?_, ?_⟩
    · rw [happ2, happ, List.append_assoc]
    · intro e he
      rcases List.mem_append.mp he with h1 | h1
      · exact hPapp e h1
      · exact hP2 e h1
  | error e1 =>
    rw [bindM_error _ _ _ _ _ _ h] at hbind
    obtain ⟨h1, h2⟩ := Prod.mk.injEq _ _ r tr2 ▸ hbind
    exact ⟨app, by rw [← h2, happ], hPapp⟩

/-- The pins that the transfer loop of `update` is allowed to touch. -/
def LoopPin (e : Event) : Prop :=
  e.pin = PinId.sin ∨ e.pin = PinId.sclk ∨ e.pin = PinId.gsclk

theorem appendsOnly_pulse {ε : Type} (p : PinId) (P : Event → Prop)
    (hHi : P ⟨p, GpioAction.setHigh⟩) (hLo : P ⟨p, GpioAction.setLow⟩) :
    appendsOnly (GpioOutExt.pulse (ε := ε) p) P :=
  appendsOnly_bindM (appendsOnly_writePin p _ P hHi)
    (fun _ => appendsOnly_writePin p _ P hLo)

theorem appendsOnly_set_value {ε : Type} (p : PinId) (v : GpioValue)
    (P : Event → Prop) (hHi : P ⟨p, GpioAction.setHigh⟩)
    (hLo : P ⟨p, GpioAction.setLow⟩) :
    appendsOnly (GpioOut.set_value (ε := ε) p v) P := by
  cases v with
  | Low => exact appendsOnly_writePin p _ P hLo
  | High => exact appendsOnly_writePin p _ P hHi

theorem appendsOnly_transferChannel {ε : Type} (c : TlcController) (ch : Nat)
    (h : ch < c.values.length) :
    ∀ k, appendsOnly (TlcController.transferChannel (ε := ε) c ch h k) LoopPin := by
  intro k
  induction k with
  | zero => exact appendsOnly_pureM () LoopPin
  | succ k ih =>
    exact appendsOnly_bindM
      (appendsOnly_bindM
        (appendsOnly_set_value _ _ _ (by left; rfl) (by left; rfl))
        (fun _ => appendsOnly_bindM
          (appendsOnly_pulse _ _ (by right; left; rfl) (by right; left; rfl))
          (fun _ => appendsOnly_pulse _ _ (by right; right; rfl) (by right; right; rfl))))
      (fun _ => ih)

theorem appendsOnly_updateLoop {ε : Type} (c : TlcController) :
    ∀ (fuel : Nat) (ch : Int) (gs : Nat) (h : ch < (c.values.length : Int)),
      appendsOnly (TlcController.updateLoop (ε := ε) c fuel ch gs h) LoopPin := by
  intro fuel
  induction fuel with
  | zero =>
    intro ch gs h
    exact appendsOnly_pureM () LoopPin
  | succ fuel ih =>
    intro ch gs h
    by_cases hgs : gs < 4096
    · by_cases hch : 0 ≤ ch
      · have hb : TlcController.updateLoop (ε := ε) c (fuel + 1) ch gs h =
            bindM (TlcController.transferChannel c ch.toNat (by omega) 12)
              (fun _ => TlcController.updateLoop c fuel (ch - 1) (gs + 12) (by omega)) := by
          simp only [TlcController.updateLoop, if_pos hgs, dif_pos hch]
        rw [hb]
        exact appendsOnly_bindM (appendsOnly_transferChannel c ch.toNat _ 12)
          (fun _ => ih (ch - 1) (gs + 12) (by omega))
      · have hb : TlcController.updateLoop (ε := ε) c (fuel + 1) ch gs h =
            bindM (bindM (GpioOut.set_low PinId.sin)
                (fun _ => GpioOutExt.pulse PinId.gsclk))
              (fun _ => TlcController.updateLoop c fuel ch (gs + 1) h) := by
          simp only [TlcController.updateLoop, if_pos hgs, dif_neg hch]
        rw [hb]
        exact appendsOnly_bindM
          (appendsOnly_bindM (appendsOnly_writePin _ _ _ (by left; rfl))
            (fun _ => appendsOnly_pulse _ _ (by right; right; rfl) (by right; right; rfl)))
          (fun _ => ih ch (gs + 1) h)
    · have hb : TlcController.updateLoop (ε := ε) c (fuel + 1) ch gs h = pureM () := by
        simp only [TlcController.updateLoop, if_neg hgs]
      rw [hb]
      exact appendsOnly_pureM () LoopPin

/-- C5: if a pin write inside update's transfer phase fails, `update`
returns that error immediately with the trace as the loop left it, and the
commit phase is never executed: beyond the initial blank-low write the run
appended only data/serial-clock/grayscale-clock events — no latch event and
no blank-high event. -/
theorem update_error_skips_commit {ε : Type} (c : TlcController) (o : Oracle ε)
    (tr : List Event) (e : ε) (tr2 : List Event)
    (hinit : o tr.length = none)
    (hloop : TlcController.updateLoop (ε := ε) c 4096 ((c.values.length : Int) - 1) 0
      (by omega) o (tr ++ [⟨PinId.blank, GpioAction.setLow⟩]) = (Except.error e, tr2)) :
    TlcController.update (ε := ε) c o tr = (Except.error e, tr2) ∧
    ∃ app, tr2 = tr ++ ⟨PinId.blank, GpioAction.setLow⟩ :: app ∧
      ∀ ev ∈ app, ev.pin = PinId.sin ∨ ev.pin = PinId.sclk ∨ ev.pin = PinId.gsclk := by
  have h0 : TlcController.update_init (ε := ε) o tr =
      (Except.ok (), tr ++ [⟨PinId.blank, GpioAction.setLow⟩]) := by
    unfold TlcController.update_init GpioOut.set_low writePin
    rw [hinit]
  constructor
  · unfold TlcController.update
    rw [bindM_ok _ _ _ _ _ _ h0]
    rw [bindM_error _ _ _ _ _ _ hloop]
  · obtain ⟨app, happ, hP⟩ := appendsOnly_updateLoop (ε := ε) c 4096
      ((c.values.length : Int) - 1) 0 (by omega) o
      (tr ++ [⟨PinId.blank, GpioAction.setLow⟩]) (Except.error e) tr2 hloop
    refine ⟨app, ?_, fun ev hev => hP ev hev⟩
    rw [happ, List.append_assoc, List.singleton_append]

/-- Witness for C5: on the all-zero controller, failing the second attempted
write of the run (the first data-bit write of the transfer phase) aborts
`update` right there: the trace holds only the blank-low write and the
failed data-write attempt, and no commit event was emitted. -/
theorem update_error_skips_commit_witness :
    TlcController.update (ε := Nat) zeroCtrl (failAt 1) [] =
      (Except.error 0,
        [⟨PinId.blank, GpioAction.setLow⟩, ⟨PinId.sin, GpioAction.setLow⟩]) ∧
    ∃ app : List Event,
      ([⟨PinId.blank, GpioAction.setLow⟩, ⟨PinId.sin, GpioAction.setLow⟩] : List Event) =
        [] ++ ⟨PinId.blank, GpioAction.setLow⟩ :: app ∧
      ∀ ev ∈ app, ev.pin = PinId.sin ∨ ev.pin = PinId.sclk ∨ ev.pin = PinId.gsclk :=
  update_error_skips_commit zeroCtrl (failAt 1) [] 0
    [⟨PinId.blank, GpioAction.setLow⟩, ⟨PinId.sin, GpioAction.setLow⟩] rfl rfl

/-- The 12 data-pin levels of one channel value, most significant bit
first, as pin actions. -/
def bitActs (v : Nat) : List GpioAction :=
  ((List.range 12).reverse).map (fun i => actOfValue (pinValueOf v i))

/-- The full expected data-bit sequence of an update: buffer entry 15's 12
bits first, down to entry 0. -/
def expectedActs (c : TlcController) : List GpioAction :=
  c.values.reverse.flatMap bitActs

theorem expectedActs_def (c : TlcController) :
    expectedActs c = c.values.reverse.flatMap bitActs := rfl

/-- One transfer block: the data-pin write, then the serial-clock pulse,
then the grayscale-clock pulse. -/
def dataBlock (a : GpioAction) : List Event :=
  ⟨PinId.sin, a⟩ :: (pulseTrace PinId.sclk ++ pulseTrace PinId.gsclk)

/-- One grayscale-only block: data pin driven low, then the grayscale-clock
pulse — no serial clock. -/
def idleBlock : List Event :=
  ⟨PinId.sin, GpioAction.setLow⟩ :: pulseTrace PinId.gsclk

/-- The data-pin writes of a trace, in order. -/
def sinActs (tr : List Event) : List GpioAction :=
  (tr.filter (fun e => decide (e.pin = PinId.sin))).map Event.act

theorem bitEvents_eq_dataBlock (v i : Nat) :
    bitEvents v i = dataBlock (actOfValue (pinValueOf v i)) := rfl

theorem bitsEvents_eq_blocks (v : Nat) :
    ∀ k, bitsEvents v k =
      (((List.range k).reverse).map (fun i => actOfValue (pinValueOf v i))).flatMap
        dataBlock := by
  intro k
  induction k with
  | zero => rfl
  | succ k ih =>
    rw [bitsEvents, List.range_succ, List.reverse_append, List.reverse_singleton,
      List.singleton_append, List.map_cons, List.flatMap_cons, ih,
      bitEvents_eq_dataBlock]

theorem channelEvents_eq_blocks (v : Nat) :
    channelEvents v = (bitActs v).flatMap dataBlock := by
  rw [channelEvents_def, bitsEvents_eq_blocks v 12, bitActs]

theorem flatMap_flatMap {α β γ : Type} (l : List α) (f : α → List β) (g : β → List γ) :
    (l.flatMap f).flatMap g = l.flatMap (fun a => (f a).flatMap g) := by
  induction l with
  | nil => rfl
  | cons a l ih => rw [List.flatMap_cons, List.flatMap_append, ih, List.flatMap_cons]

theorem transferEvents_eq_blocks (vals : List Nat) :
    transferEvents vals = (vals.reverse.flatMap bitActs).flatMap dataBlock := by
  rw [transferEvents, flatMap_flatMap]
  have : ∀ l : List Nat, l.flatMap channelEvents =
      l.flatMap (fun v => (bitActs v).flatMap dataBlock) := by
    intro l
    induction l with
    | nil => rfl
    | cons a l ih =>
      rw [List.flatMap_cons, List.flatMap_cons, ih, channelEvents_eq_blocks]
  exact this vals.reverse

theorem idleEvents_eq_replicate :
    ∀ m, idleEvents m = (List.replicate m idleBlock).flatten := by
  intro m
  induction m with
  | zero => rfl
  | succ m ih => rw [idleEvents, List.replicate_succ, List.flatten_cons, ih, idleBlock]

theorem sinActs_append (l1 l2 : List Event) :
    sinActs (l1 ++ l2) = sinActs l1 ++ sinActs l2 := by
  rw [sinActs, List.filter_append, List.map_append, sinActs, sinActs]

theorem sinActs_cons_of_pin_ne {e : Event} (h : e.pin ≠ PinId.sin) (l : List Event) :
    sinActs (e :: l) = sinActs l := by
  rw [sinActs, List.filter_cons_of_neg (by simpa using h), sinActs]

theorem sinActs_dataBlocks :
    ∀ acts : List GpioAction, sinActs (acts.flatMap dataBlock) = acts := by
  intro acts
  induction acts with
  | nil => rfl
  | cons a acts ih =>
    rw [List.flatMap_cons, sinActs_append, ih]
    rw [show sinActs (dataBlock a) = [a] from rfl, List.singleton_append]

theorem sinActs_idleEvents :
    ∀ m, sinActs (idleEvents m) = List.replicate m GpioAction.setLow := by
  intro m
  induction m with
  | zero => rfl
  | succ m ih =>
    rw [idleEvents, sinActs_append, ih,
      show sinActs (⟨PinId.sin, GpioAction.setLow⟩ :: pulseTrace PinId.gsclk) =
        [GpioAction.setLow] from rfl,
      List.replicate_succ, List.singleton_append]

/-- The data-pin writes of a successful update run: the expected 192 data
bits followed by 3904 low writes. -/
theorem sinActs_update_allOk (c : TlcController) (hlen : c.values.length = 16) :
    sinActs ((TlcController.update (ε := Unit) c allOk []).2) =
      expectedActs c ++ List.replicate 3904 GpioAction.setLow := by
  rw [update_allOk_trace (ε := Unit) c hlen, updateEvents_def,
    sinActs_cons_of_pin_ne (by decide), sinActs_append, sinActs_append,
    transferEvents_eq_blocks, sinActs_dataBlocks, sinActs_idleEvents,
    show sinActs (⟨PinId.blank, GpioAction.setHigh⟩ :: pulseTrace PinId.xlat) = []
      from rfl,
    List.append_nil, ← expectedActs_def]

/-- C2: a fully successful update drives the data pin with exactly the bits
of buffer entry 15 (bit 11 down to 0), then entry 14, …, down to entry 0
(`expectedActs`), and holds the data pin low during all 3904 grayscale-only
pulses.  The trace decomposes into blocks `⟨sin, bit⟩ :: sclk-pulse ++
gsclk-pulse` — each data-pin write strictly precedes its serial-clock
pulse — followed by 3904 blocks `⟨sin, low⟩ :: gsclk-pulse`; filtering the
data-pin writes yields the 192 expected bits followed by 3904 lows. -/
theorem update_data_bit_sequence (c : TlcController) (hlen : c.values.length = 16) :
    (TlcController.update (ε := Unit) c allOk []).2 =
      ⟨PinId.blank, GpioAction.setLow⟩ ::
        ((expectedActs c).flatMap dataBlock ++ (List.replicate 3904 idleBlock).flatten ++
          ⟨PinId.blank, GpioAction.setHigh⟩ :: pulseTrace PinId.xlat) ∧
    sinActs ((TlcController.update (ε := Unit) c allOk []).2) =
      expectedActs c ++ List.replicate 3904 GpioAction.setLow := by
  constructor
  · rw [update_allOk_trace (ε := Unit) c hlen, updateEvents_def,
      transferEvents_eq_blocks, idleEvents_eq_replicate, ← expectedActs_def]
  · exact sinActs_update_allOk c hlen

/-- Witness for C2: the buffer-length hypothesis discharged at the all-zero
controller. -/
theorem update_data_bit_sequence_witness :
    (TlcController.update (ε := Unit) zeroCtrl allOk []).2 =
      ⟨PinId.blank, GpioAction.setLow⟩ ::
        ((expectedActs zeroCtrl).flatMap dataBlock ++
          (List.replicate 3904 idleBlock).flatten ++
          ⟨PinId.blank, GpioAction.setHigh⟩ :: pulseTrace PinId.xlat) ∧
    sinActs ((TlcController.update (ε := Unit) zeroCtrl allOk []).2) =
      expectedActs zeroCtrl ++ List.replicate 3904 GpioAction.setLow :=
  update_data_bit_sequence zeroCtrl rfl

/-- C8: `set_channel i w` overwrites exactly slot `i` (all other slots and
the length unchanged); `set_all v` overwrites every slot with `v`; and after
`set_all v` then `set_channel 3 w`, a successful update emits `w`'s bits for
channel 3 and `v`'s bits for every other channel, followed by the 3904
grayscale-only low writes. -/
theorem set_channel_set_all_frame (c : TlcController) (hlen : c.values.length = 16)
    (i : Nat) (hi : i < 16) (w v : Nat) :
    (∃ c2 : TlcController, TlcController.set_channel c i w = some c2 ∧
      c2.values.get? i = some w ∧
      (∀ j, j ≠ i → c2.values.get? j = c.values.get? j) ∧
      c2.values.length = c.values.length) ∧
    ((TlcController.set_all c v).values = List.replicate c.values.length v) ∧
    (∃ c3 : TlcController,
      TlcController.set_channel (TlcController.set_all c v) 3 w = some c3 ∧
      sinActs ((TlcController.update (ε := Unit) c3 allOk []).2) =
        ((List.range 16).reverse.map (fun idx => if idx = 3 then w else v)).flatMap
          bitActs ++ List.replicate 3904 GpioAction.setLow) := by
  refine ⟨⟨⟨c.values.set i w⟩, ?_, ?_, ?_, ?_⟩, ?_, ?_⟩
  · rw [TlcController.set_channel, if_pos (by omega)]
  · exact List.get?_set_eq_of_lt w (by omega)
  · intro j hj
    exact List.get?_set_ne w c.values (Ne.symm hj)
  · exact List.length_set c.values i w
  · exact List.map_const' c.values v
  · refine ⟨⟨(c.values.map (fun _ => v)).set 3 w⟩, ?_, ?_⟩
    · have h3 : 3 < (TlcController.set_all c v).values.length := by
        rw [show (TlcController.set_all c v).values = c.values.map (fun _ => v) from rfl,
          List.length_map, hlen]
        omega
      rw [TlcController.set_channel, if_pos h3]
      rfl
    · have hlen3 : (⟨(c.values.map (fun _ => v)).set 3 w⟩ : TlcController).values.length
          = 16 := by
        show ((c.values.map (fun _ => v)).set 3 w).length = 16
        rw [List.length_set, List.length_map, hlen]
      rw [sinActs_update_allOk _ hlen3]
      have hl : ((c.values.map (fun _ => v)).set 3 w) = (List.replicate 16 v).set 3 w := by
        rw [List.map_const', hlen]
      rw [show (⟨(c.values.map (fun _ => v)).set 3 w⟩ : TlcController) =
          ⟨(List.replicate 16 v).set 3 w⟩ from by rw [hl]]
      rw [show expectedActs ⟨(List.replicate 16 v).set 3 w⟩ =
          ((List.range 16).reverse.map (fun idx => if idx = 3 then w else v)).flatMap
            bitActs from rfl]

/-- Witness for C8: hypotheses discharged at the all-zero controller with
index 5, written value 9, fill value 4. -/
theorem set_channel_set_all_frame_witness :
    (∃ c2 : TlcController, TlcController.set_channel zeroCtrl 5 9 = some c2 ∧
      c2.values.get? 5 = some 9 ∧
      (∀ j, j ≠ 5 → c2.values.get? j = zeroCtrl.values.get? j) ∧
      c2.values.length = zeroCtrl.values.length) ∧
    ((TlcController.set_all zeroCtrl 4).values =
      List.replicate zeroCtrl.values.length 4) ∧
    (∃ c3 : TlcController,
      TlcController.set_channel (TlcController.set_all zeroCtrl 4) 3 9 = some c3 ∧
      sinActs ((TlcController.update (ε := Unit) c3 allOk []).2) =
        ((List.range 16).reverse.map (fun idx => if idx = 3 then 9 else 4)).flatMap
          bitActs ++ List.replicate 3904 GpioAction.setLow) :=
  set_channel_set_all_frame zeroCtrl rfl 5 (by omega) 9 4

/-! ## Only the low 12 bits of a channel value are observable -/

theorem pinValueOf_testBit (v bit : Nat) :
    pinValueOf v bit = if v.testBit bit then GpioValue.High else GpioValue.Low := by
  unfold pinValueOf
  rw [Nat.shiftLeft_eq, one_mul, Nat.and_two_pow, Nat.shiftRight_eq_div_pow,
    Nat.mul_div_cancel _ (Nat.two_pow_pos bit)]
  cases h : v.testBit bit <;> simp [h]

theorem testBit_congr_mod {v w : Nat} (h : v % 2 ^ 12 = w % 2 ^ 12) {bit : Nat}
    (hb : bit < 12) : v.testBit bit = w.testBit bit := by
  have hv := Nat.testBit_mod_two_pow v 12 bit
  have hw := Nat.testBit_mod_two_pow w 12 bit
  rw [h] at hv
  simpa [hb] using hv.symm.trans hw

theorem pinValueOf_congr {v w : Nat} (h : v % 2 ^ 12 = w % 2 ^ 12) {bit : Nat}
    (hb : bit < 12) : pinValueOf v bit = pinValueOf w bit := by
  rw [pinValueOf_testBit, pinValueOf_testBit, testBit_congr_mod h hb]

theorem bindM_congr {ε α β : Type} {m : M ε α} {f g : α → M ε β}
    (h : ∀ (a : α) (o : Oracle ε) (tr : List Event), f a o tr = g a o tr) :
    ∀ (o : Oracle ε) (tr : List Event), bindM m f o tr = bindM m g o tr := by
  intro o tr
  rcases hm : m o tr with ⟨r, tr2⟩
  cases r with
  | ok a => rw [bindM_ok _ _ _ _ _ _ hm, bindM_ok _ _ _ _ _ _ hm, h]
  | error e => rw [bindM_error _ _ _ _ _ _ hm, bindM_error _ _ _ _ _ _ hm]

theorem bindM_congr2 {ε α β : Type} {m1 m2 : M ε α} {f g : α → M ε β}
    (hm : ∀ (o : Oracle ε) (tr : List Event), m1 o tr = m2 o tr)
    (h : ∀ (a : α) (o : Oracle ε) (tr : List Event), f a o tr = g a o tr) :
    ∀ (o : Oracle ε) (tr : List Event), bindM m1 f o tr = bindM m2 g o tr := by
  intro o tr
  rcases hm2 : m2 o tr with ⟨r, tr2⟩
  have hm1 : m1 o tr = (r, tr2) := by rw [hm o tr, hm2]
  cases r with
  | ok a => rw [bindM_ok _ _ _ _ _ _ hm1, bindM_ok _ _ _ _ _ _ hm2, h]
  | error e => rw [bindM_error _ _ _ _ _ _ hm1, bindM_error _ _ _ _ _ _ hm2]

theorem transferChannel_congr {ε : Type} (c1 c2 : TlcController)
    (hcong : ∀ (i : Nat) (h1 : i < c1.values.length) (h2 : i < c2.values.length),
      c1.values.get ⟨i, h1⟩ % 2 ^ 12 = c2.values.get ⟨i, h2⟩ % 2 ^ 12)
    (ch : Nat) (h1 : ch < c1.values.length) (h2 : ch < c2.values.length) :
    ∀ k, k ≤ 12 → ∀ (o : Oracle ε) (tr : List Event),
      TlcController.transferChannel (ε := ε) c1 ch h1 k o tr =
        TlcController.transferChannel (ε := ε) c2 ch h2 k o tr := by
  intro k
  induction k with
  | zero => intro _ o tr; rfl
  | succ k ih =>
    intro hk o tr
    have hpv : c1.get_pin_value_for_channel ch k h1 =
        c2.get_pin_value_for_channel ch k h2 := by
      show pinValueOf (c1.values.get ⟨ch, h1⟩) k = pinValueOf (c2.values.get ⟨ch, h2⟩) k
      exact pinValueOf_congr (hcong ch h1 h2) (by omega)
    simp only [TlcController.transferChannel]
    rw [hpv]
    exact bindM_congr (fun a o2 tr2 => ih (by omega) o2 tr2) o tr

theorem updateLoop_values_congr {ε : Type} (c1 c2 : TlcController)
    (hlen : c1.values.length = c2.values.length)
    (hcong : ∀ (i : Nat) (h1 : i < c1.values.length) (h2 : i < c2.values.length),
      c1.values.get ⟨i, h1⟩ % 2 ^ 12 = c2.values.get ⟨i, h2⟩ % 2 ^ 12) :
    ∀ (fuel : Nat) (ch : Int) (gs : Nat) (h1 : ch < (c1.values.length : Int))
      (h2 : ch < (c2.values.length : Int)) (o : Oracle ε) (tr : List Event),
      TlcController.updateLoop (ε := ε) c1 fuel ch gs h1 o tr =
        TlcController.updateLoop (ε := ε) c2 fuel ch gs h2 o tr := by
  intro fuel
  induction fuel with
  | zero => intro ch gs h1 h2 o tr; rfl
  | succ fuel ih =>
    intro ch gs h1 h2 o tr
    by_cases hgs : gs < 4096
    · by_cases hch : 0 ≤ ch
      · have hb1 : TlcController.updateLoop (ε := ε) c1 (fuel + 1) ch gs h1 =
            bindM (TlcController.transferChannel c1 ch.toNat (by omega) 12)
              (fun _ => TlcController.updateLoop c1 fuel (ch - 1) (gs + 12) (by omega)) := by
          simp only [TlcController.updateLoop, if_pos hgs, dif_pos hch]
        have hb2 : TlcController.updateLoop (ε := ε) c2 (fuel + 1) ch gs h2 =
            bindM (TlcController.transferChannel c2 ch.toNat (by omega) 12)
              (fun _ => TlcController.updateLoop c2 fuel (ch - 1) (gs + 12) (by omega)) := by
          simp only [TlcController.updateLoop, if_pos hgs, dif_pos hch]
        rw [hb1, hb2]
        exact bindM_congr2
          (transferChannel_congr c1 c2 hcong ch.toNat (by omega) (by omega) 12 (by omega))
          (fun a o2 tr2 => ih (ch - 1) (gs + 12) (by omega) (by omega) o2 tr2) o tr
      · have hb1 : TlcController.updateLoop (ε := ε) c1 (fuel + 1) ch gs h1 =
            bindM (bindM (GpioOut.set_low PinId.sin)
                (fun _ => GpioOutExt.pulse PinId.gsclk))
              (fun _ => TlcController.updateLoop c1 fuel ch (gs + 1) h1) := by
          simp only [TlcController.updateLoop, if_pos hgs, dif_neg hch]
        have hb2 : TlcController.updateLoop (ε := ε) c2 (fuel + 1) ch gs h2 =
            bindM (bindM (GpioOut.set_low PinId.sin)
                (fun _ => GpioOutExt.pulse PinId.gsclk))
              (fun _ => TlcController.updateLoop c2 fuel ch (gs + 1) h2) := by
          simp only [TlcController.updateLoop, if_pos hgs, dif_neg hch]
        rw [hb1, hb2]
        exact bindM_congr (fun a o2 tr2 => ih ch (gs + 1) h1 h2 o2 tr2) o tr
    · have hb1 : TlcController.updateLoop (ε := ε) c1 (fuel + 1) ch gs h1 = pureM () := by
        simp only [TlcController.updateLoop, if_neg hgs]
      have hb2 : TlcController.updateLoop (ε := ε) c2 (fuel + 1) ch gs h2 = pureM () := by
        simp only [TlcController.updateLoop, if_neg hgs]
      rw [hb1, hb2]

/-- C6: only bits 0–11 of each channel value influence `update`: two
controllers whose buffers have the same length and pointwise congruent
entries modulo 2^12 produce identical pin-write traces under every oracle,
and their runs succeed or fail identically with the same error. -/
theorem update_depends_on_low_twelve_bits {ε : Type} (c1 c2 : TlcController)
    (hlen : c1.values.length = c2.values.length)
    (hcong : ∀ (i : Nat) (h1 : i < c1.values.length) (h2 : i < c2.values.length),
      c1.values.get ⟨i, h1⟩ % 2 ^ 12 = c2.values.get ⟨i, h2⟩ % 2 ^ 12)
    (o : Oracle ε) (tr : List Event) :
    (TlcController.update (ε := ε) c1 o tr).2 =
      (TlcController.update (ε := ε) c2 o tr).2 ∧
    (TlcController.update (ε := ε) c1 o tr).1.map (fun _ => ()) =
      (TlcController.update (ε := ε) c2 o tr).1.map (fun _ => ()) := by
  unfold TlcController.update
  rcases h0 : TlcController.update_init (ε := ε) o tr with ⟨r0, tr0⟩
  cases r0 with
  | error e =>
    rw [bindM_error _ _ _ _ _ _ h0, bindM_error _ _ _ _ _ _ h0]
    exact ⟨rfl, rfl⟩
  | ok a =>
    cases a
    rw [bindM_ok _ _ _ _ _ _ h0, bindM_ok _ _ _ _ _ _ h0]
    have hch2 : ((c2.values.length : Int) - 1) = ((c1.values.length : Int) - 1) := by
      rw [hlen]
    have hpf2 : ((c1.values.length : Int) - 1) < (c2.values.length : Int) := by omega
    rw [updateLoop_congr (ε := ε) c2 4096 hch2 rfl _ hpf2]
    rcases h1 : TlcController.updateLoop (ε := ε) c1 4096 ((c1.values.length : Int) - 1) 0
        (by omega) o tr0 with ⟨r1, tr1⟩
    have h1' : TlcController.updateLoop (ε := ε) c2 4096 ((c1.values.length : Int) - 1) 0
        hpf2 o tr0 = (r1, tr1) := by
      rw [← updateLoop_values_congr c1 c2 hlen hcong 4096 ((c1.values.length : Int) - 1) 0
        (by omega) hpf2 o tr0]
      exact h1
    cases r1 with
    | error e =>
      rw [bindM_error _ _ _ _ _ _ h1, bindM_error _ _ _ _ _ _ h1']
      exact ⟨rfl, rfl⟩
    | ok a1 =>
      cases a1
      rw [bindM_ok _ _ _ _ _ _ h1, bindM_ok _ _ _ _ _ _ h1']
      rcases h2 : TlcController.update_post (ε := ε) o tr1 with ⟨r2, tr2⟩
      cases r2 with
      | error e =>
        rw [bindM_error _ _ _ _ _ _ h2, bindM_error _ _ _ _ _ _ h2]
        exact ⟨rfl, rfl⟩
      | ok a2 =>
        cases a2
        rw [bindM_ok _ _ _ _ _ _ h2, bindM_ok _ _ _ _ _ _ h2]
        exact ⟨rfl, rfl⟩

/-- Witness for C6: a buffer of 4096s is congruent to the all-zero buffer
modulo 2^12, so the two updates behave identically. -/
theorem update_depends_on_low_twelve_bits_witness :
    (TlcController.update (ε := Unit) ⟨List.replicate 16 4096⟩ allOk []).2 =
      (TlcController.update (ε := Unit) ⟨List.replicate 16 0⟩ allOk []).2 ∧
    (TlcController.update (ε := Unit) ⟨List.replicate 16 4096⟩ allOk []).1.map
        (fun _ => ()) =
      (TlcController.update (ε := Unit) ⟨List.replicate 16 0⟩ allOk []).1.map
        (fun _ => ()) :=
  update_depends_on_low_twelve_bits ⟨List.replicate 16 4096⟩ ⟨List.replicate 16 0⟩ rfl
    (fun i h1 h2 => by rw [List.get_replicate, List.get_replicate]; decide) allOk []

end Tlc
